import Mathlib

/-!
Verification of the Hybrid Quality Scoring & Group Resolution Engine of
immich-best-shot (src/index.ts), as a shallow embedding. JavaScript numbers
are modelled by exact rationals, except for the single use of Math.log10
(the sharpness normalisation), which is modelled over the reals; byte
buffers are lists of naturals; fallible code returns Option, with none
modelling a thrown exception or an absent result.
-/

namespace BestShot

/-- A decoded RGBA pixel buffer: `data` is channel-interleaved, four bytes
per pixel (the output of `decodeJpeg` that `scoreAsset` consumes). -/
structure PixelBuffer where
  width : ℕ
  height : ℕ
  data : List ℕ
deriving DecidableEq

/-- The structural invariant of a decoded buffer: positive dimensions,
`width * height * 4` interleaved bytes, every byte below 256. -/
def PixelBuffer.valid (p : PixelBuffer) : Prop :=
  0 < p.width ∧ 0 < p.height ∧ p.data.length = p.width * p.height * 4 ∧ ∀ v ∈ p.data, v < 256

instance (p : PixelBuffer) : Decidable p.valid := by
  unfold PixelBuffer.valid
  infer_instance

/-- `toGrayscaleRGBA` (index.ts:185-192). The JS loop writes
`(r * 299 + g * 587 + b * 114) / 1000` into a `Uint8Array`; the typed-array
store truncates (ToUint8), which for these non-negative values below 256 is
the floor, so the embedding uses natural-number division. The alpha byte at
`4 * j + 3` is never read. -/
def toGrayscaleRGBA (src : List ℕ) : List ℕ :=
  (List.range (src.length / 4)).map fun j =>
    (src.getD (4 * j) 0 * 299 + src.getD (4 * j + 1) 0 * 587 + src.getD (4 * j + 2) 0 * 114) / 1000

/-- A single-channel luminance map (the `gray` buffer plus its dimensions). -/
structure LumMap where
  width : ℕ
  height : ℕ
  data : List ℕ
deriving DecidableEq

/-- A luminance map is valid when its dimensions are positive, its data has
`width * height` entries and every entry is a byte. -/
def LumMap.valid (m : LumMap) : Prop :=
  0 < m.width ∧ 0 < m.height ∧ m.data.length = m.width * m.height ∧ ∀ v ∈ m.data, v < 256

instance (m : LumMap) : Decidable m.valid := by
  unfold LumMap.valid
  infer_instance

/-- The luminance map `scoreAsset` derives from a decoded buffer. -/
def grayOf (p : PixelBuffer) : LumMap :=
  ⟨p.width, p.height, toGrayscaleRGBA p.data⟩

/-- `gray[y * width + x]`; an out-of-range read yields 0 (never reached on
the index ranges the analyzers use for a valid map). -/
def lum (m : LumMap) (x y : ℕ) : ℕ :=
  m.data.getD (y * m.width + x) 0

/-- The value the JS length expression `(width - 2) * (height - 2)` takes
(over ℤ: JS numbers do not truncate subtraction at zero). -/
def lapConvLen (m : LumMap) : ℤ :=
  ((m.width : ℤ) - 2) * ((m.height : ℤ) - 2)

/-- The Laplacian responses the convolution loop of `varianceOfLaplacian`
writes, in loop order (index.ts:198-207); the loop variables are
`y = dy + 1`, `x = dx + 1`, so `i0 = (y-1)*width + (x-1) = dy*width + dx`.
All nine taps of the kernel `[0,1,0,1,-4,1,0,1,0]` are kept. -/
def lapConv (m : LumMap) : List ℤ :=
  (List.range (m.height - 2)).flatMap fun dy =>
    (List.range (m.width - 2)).map fun dx =>
      let i0 := dy * m.width + dx
      let g : ℕ → ℤ := fun i => (m.data.getD i 0 : ℤ)
      g i0 * 0 + g (i0 + 1) * 1 + g (i0 + 2) * 0 +
        g (i0 + m.width) * 1 + g (i0 + m.width + 1) * (-4) + g (i0 + m.width + 2) * 1 +
        g (i0 + 2 * m.width) * 0 + g (i0 + 2 * m.width + 1) * 1 + g (i0 + 2 * m.width + 2) * 0

/-- `varianceOfLaplacian` (index.ts:194-220). `new Float32Array(len)`
throws a RangeError for negative `len`, modelled by `none`; otherwise the
array has `len` slots, zero-filled beyond the ones the loop wrote, and the
function returns 0 when the array has at most one slot, else the sample
variance (denominator `n - 1`) of the slots. -/
def varianceOfLaplacian (m : LumMap) : Option ℚ :=
  if lapConvLen m < 0 then none
  else
    let conv : List ℚ :=
      (lapConv m).map (Int.cast : ℤ → ℚ) ++
        List.replicate ((lapConvLen m).toNat - (lapConv m).length) 0
    let n := conv.length
    if n ≤ 1 then some 0
    else
      let mean := conv.sum / (n : ℚ)
      some ((conv.map fun c => (c - mean) * (c - mean)).sum / ((n : ℚ) - 1))

/-- `exposureScore` (index.ts:222-237): mean brightness against the ideal
130 plus a clipping penalty, clamped to [0, 1]. -/
def exposureScore (gray : List ℕ) : ℚ :=
  let n : ℚ := (gray.length : ℕ)
  let mean : ℚ := (gray.sum : ℕ) / n
  let clippedLow : ℕ := (gray.filter fun v => v ≤ 3).length
  let clippedHigh : ℕ := (gray.filter fun v => 252 ≤ v).length
  let normMean : ℚ := 1 - |(mean - 130) / 130|
  let clipFrac : ℚ := ((clippedLow + clippedHigh : ℕ) : ℚ) / n
  let clipPenalty : ℚ := 1 - min 1 (clipFrac * 5)
  max 0 (min 1 (0.6 * max 0 normMean + 0.4 * clipPenalty))

/-- `Math.max(1, Math.floor(width / grid))` with `grid = 3` (index.ts:241). -/
def gwOf (m : LumMap) : ℕ := max 1 (m.width / 3)

/-- `Math.max(1, Math.floor(height / grid))` with `grid = 3` (index.ts:242). -/
def ghOf (m : LumMap) : ℕ := max 1 (m.height / 3)

/-- One grid cell's luminance sum (index.ts:246-251): `x` runs over
`[gx * gw, min width ((gx+1) * gw))` and `y` over the analogous rows. -/
def cellSum (m : LumMap) (gx gy : ℕ) : ℕ :=
  ∑ y in Finset.Ico (gy * ghOf m) (min m.height ((gy + 1) * ghOf m)),
    ∑ x in Finset.Ico (gx * gwOf m) (min m.width ((gx + 1) * gwOf m)), lum m x y

/-- The centre cell's sum (`gx = 1 ∧ gy = 1`, index.ts:253). -/
def compCenterSum (m : LumMap) : ℕ := cellSum m 1 1

/-- The nine cells' total (index.ts:244-252). -/
def compTotalSum (m : LumMap) : ℕ :=
  ∑ gy in Finset.range 3, ∑ gx in Finset.range 3, cellSum m gx gy

/-- `compositionScore` (index.ts:239-260): 0.5 for an all-zero image, else
the centre-cell energy fraction mapped through `(f - 0.11) / (0.35 - 0.11)`
and clamped to [0, 1]. -/
def compositionScore (m : LumMap) : ℚ :=
  if compTotalSum m = 0 then 0.5
  else
    let centerFrac : ℚ := (compCenterSum m : ℚ) / (compTotalSum m : ℚ)
    max 0 (min 1 ((centerFrac - 0.11) / (0.35 - 0.11)))

/-- The optional AI metadata of an asset: scene tags and the `people` and
`faces` arrays, modelled by their lengths when present. -/
structure SmartInfo where
  tags : Option (List String)
  people : Option ℕ
  faces : Option ℕ
deriving DecidableEq

/-- An asset as `getAsset` returns it (only `smartInfo` matters here). -/
structure Asset where
  smartInfo : Option SmartInfo
deriving DecidableEq

/-- ASCII lowercasing of one character, as JS `.toLowerCase()` acts on the
ASCII range (every tag constant compared against is ASCII). -/
def asciiLowerChar (c : Char) : Char :=
  if 65 ≤ c.toNat ∧ c.toNat ≤ 90 then Char.ofNat (c.toNat + 32) else c

/-- `(t || '').toString().toLowerCase()` (index.ts:271) on a present tag. -/
def jsToLowerCase (s : String) : String := ⟨s.data.map asciiLowerChar⟩

/-- The positive tag set of `smartInfoScore` (index.ts:273). -/
def positiveTags : List String := ["person", "people", "portrait", "family", "selfie"]

/-- The negative tag set of `smartInfoScore` (index.ts:274). -/
def negativeTags : List String := ["screenshot", "document", "whiteboard", "qr", "barcode"]

/-- `smartInfoScore` (index.ts:262-281): face count from `people` when that
array is present, else from `faces`, else 0; capped face score
`min 1 (count / 3)`; tag boost +0.7 for any positive tag, -0.6 for any
negative tag, clamped to [-1, 1] and mapped to `(boost + 1) / 2`. -/
def smartInfoScore (a : Asset) : ℚ × ℚ :=
  let faceCount : ℕ :=
    match a.smartInfo.bind SmartInfo.people with
    | some p => p
    | none =>
      match a.smartInfo.bind SmartInfo.faces with
      | some f => f
      | none => 0
  let faceScore : ℚ := min 1 ((faceCount : ℚ) / 3)
  let tags : List String := ((a.smartInfo.bind SmartInfo.tags).getD []).map jsToLowerCase
  let boost0 : ℚ := if tags.any fun t => positiveTags.contains t then 0.7 else 0
  let boost1 : ℚ := if tags.any fun t => negativeTags.contains t then boost0 - 0.6 else boost0
  let tagBoost : ℚ := max (-1) (min 1 boost1)
  (faceScore, (tagBoost + 1) / 2)

/-- The sharpness normalisation of `scoreAsset` (index.ts:294):
`Math.max(0, Math.min(1, Math.log10(1 + sharpVar) / 5))`. -/
noncomputable def sharpnessScore (v : ℚ) : ℝ :=
  max 0 (min 1 (Real.logb 10 (1 + (v : ℝ)) / 5))

/-- The configurable scoring weights (index.ts:32). -/
structure Weights where
  sharpness : ℚ
  exposure : ℚ
  face : ℚ
  tags : ℚ
deriving DecidableEq

/-- `DEFAULT_WEIGHTS` (index.ts:33). -/
def DEFAULT_WEIGHTS : Weights := ⟨0.45, 0.25, 0.2, 0.1⟩

/-- The failure reasons `scoreAsset` records (index.ts:285,288). -/
inductive FailReason
  | no_preview
  | decode_failed
deriving DecidableEq

/-- The component breakdown of a successfully decoded asset. -/
structure OkParts where
  sharp : ℝ
  exposure : ℚ
  face : ℚ
  tags : ℚ

/-- The `parts` record of an AssetScore: a failure reason, or the four
component values. -/
inductive ScoreParts
  | failed (reason : FailReason)
  | ok (p : OkParts)

/-- The face component of a breakdown, when the asset was scored. -/
def ScoreParts.faceVal : ScoreParts → Option ℚ
  | .failed _ => none
  | .ok p => some p.face

/-- The tags component of a breakdown, when the asset was scored. -/
def ScoreParts.tagsVal : ScoreParts → Option ℚ
  | .failed _ => none
  | .ok p => some p.tags

/-- `scoreAsset` (index.ts:283-316) as a pure function of what its external
calls returned: `input` combines `getPreviewBytes` and `decodeJpeg`
(`none` = no preview bytes, `some none` = decode failure), `meta` is what
`getAsset` returned, `useAI` the USE_IMMICH_AI flag, `w` the configured
weights. A `none` result models the RangeError escaping from
`varianceOfLaplacian`. -/
noncomputable def scoreAsset (input : Option (Option PixelBuffer)) (meta : Option Asset)
    (useAI : Bool) (w : Weights) : Option (ℝ × ScoreParts) :=
  match input with
  | none => some (0, .failed .no_preview)
  | some none => some (0, .failed .decode_failed)
  | some (some px) =>
    let gray := grayOf px
    match varianceOfLaplacian gray with
    | none => none
    | some sharpVar =>
      let sharp := sharpnessScore sharpVar
      let exposure := exposureScore gray.data
      let composition := compositionScore gray
      let exposureComposite : ℚ := max 0 (min 1 (0.75 * exposure + 0.25 * composition))
      let ft : ℚ × ℚ :=
        if useAI then
          match meta with
          | some a => smartInfoScore a
          | none => (0, 0)
        else (0, 0)
      some ((w.sharpness : ℝ) * sharp + (w.exposure : ℝ) * (exposureComposite : ℝ) +
          (w.face : ℝ) * (ft.1 : ℝ) + (w.tags : ℝ) * (ft.2 : ℝ),
        .ok ⟨sharp, exposureComposite, ft.1, ft.2⟩)

/-- One entry of the `results` array of `pickBestByScore`: an asset id, its
total score and its breakdown. The total's type and the breakdown's type
are parameters, as `pickBestByScore` only reads `total` and `id`. -/
structure Scored (α : Type) (π : Type) where
  id : String
  total : α
  parts : π
deriving DecidableEq

/-- Stable insertion of `x` into an already ranked list: `x` goes in front
of the first entry it does not score strictly below. Inserting each
element of the original enumeration in turn therefore yields the unique
permutation that is sorted descending by total and keeps equal totals in
enumeration order, which is what the stable `Array.prototype.sort`
(index.ts:324) produces with the comparator on totals. -/
def insertDesc {α π : Type} [LinearOrder α] (x : Scored α π) :
    List (Scored α π) → List (Scored α π)
  | [] => [x]
  | y :: ys => if y.total ≤ x.total then x :: y :: ys else y :: insertDesc x ys

/-- The ranking `results.sort((a, b) => b.total - a.total)` computes. -/
def sortByTotalDesc {α π : Type} [LinearOrder α] :
    List (Scored α π) → List (Scored α π)
  | [] => []
  | x :: xs => insertDesc x (sortByTotalDesc xs)

/-- The value `pickBestByScore` returns (index.ts:327). -/
structure PickResult (α : Type) (π : Type) where
  best : String
  others : List String
  debug : List (Scored α π)
deriving DecidableEq

/-- The scored entries `pickBestByScore` builds, in enumeration order
(index.ts:319-323). -/
def scoredOf {α π : Type} (score : String → α × π) (ids : List String) :
    List (Scored α π) :=
  ids.map fun i => ⟨i, (score i).1, (score i).2⟩

/-- `pickBestByScore` (index.ts:318-328), as a function of the score each
asset id obtained. Reading `results[0].id` of an empty group is a
TypeError, modelled by `none`. -/
def pickBestByScore {α π : Type} [LinearOrder α] (score : String → α × π)
    (ids : List String) : Option (PickResult α π) :=
  match sortByTotalDesc (scoredOf score ids) with
  | [] => none
  | r :: rs => some ⟨r.id, rs.map Scored.id, r :: rs⟩

/-- One member entry of a duplicate group. -/
structure DuplicateAsset where
  id : String
deriving DecidableEq

/-- A duplicate group as the API returns it (`assets` can be missing). -/
structure DuplicateGroup where
  duplicateId : String
  assets : Option (List DuplicateAsset)
deriving DecidableEq

/-- `(g.assets ?? []).map(a => a.id).filter(Boolean)` (index.ts:417): the
Boolean filter keeps the non-empty id strings. -/
def groupAssetIds (g : DuplicateGroup) : List String :=
  ((g.assets.getD []).map DuplicateAsset.id).filter fun s => !s.isEmpty

/-- The per-group body of the main loop (index.ts:416-423): a group whose
filtered id list is empty is skipped before `pickBestByScore` runs. -/
def processGroup {α π : Type} [LinearOrder α] (score : String → α × π)
    (g : DuplicateGroup) : Option (PickResult α π) :=
  if groupAssetIds g = [] then none
  else pickBestByScore score (groupAssetIds g)

/-- The spec's Group Resolver example: asset A fails with `no_preview`
(total 0), B scores 0.6, C scores 0.8. -/
def exampleScore : String → ℚ × Option FailReason := fun i =>
  if i = "A" then (0, some FailReason.no_preview)
  else if i = "B" then (0.6, none)
  else if i = "C" then (0.8, none)
  else (0, none)

/-- The Grayscale Reducer as the spec words it, for comparison with the
code's `toGrayscaleRGBA`: luminance is `round(0.299 R + 0.587 G + 0.114 B)`,
rounding to the nearest integer. -/
def specRoundLuminance (r g b : ℕ) : ℤ :=
  round ((0.299 : ℚ) * r + 0.587 * g + 0.114 * b)

/-- A constant-luminance test image: every one of the `wid * hei` entries
is `c`. -/
def uniformMap (wid hei c : ℕ) : LumMap :=
  ⟨wid, hei, List.replicate (wid * hei) c⟩

/-! ### Ranking lemmas -/

theorem insertDesc_perm {α π : Type} [LinearOrder α] (x : Scored α π)
    (l : List (Scored α π)) : (insertDesc x l).Perm (x :: l) := by
  induction l with
  | nil => exact List.Perm.refl _
  | cons y ys ih =>
    by_cases h : y.total ≤ x.total
    · simp only [insertDesc, if_pos h]
      exact List.Perm.refl _
    · simp only [insertDesc, if_neg h]
      exact (ih.cons y).trans (List.Perm.swap x y ys)

theorem sortByTotalDesc_perm {α π : Type} [LinearOrder α] (l : List (Scored α π)) :
    (sortByTotalDesc l).Perm l := by
  induction l with
  | nil => exact List.Perm.refl _
  | cons x xs ih => exact (insertDesc_perm x (sortByTotalDesc xs)).trans (ih.cons x)

theorem insertDesc_pairwise {α π : Type} [LinearOrder α] (x : Scored α π)
    {l : List (Scored α π)} (hl : l.Pairwise fun a b => b.total ≤ a.total) :
    (insertDesc x l).Pairwise fun a b => b.total ≤ a.total := by
  induction l with
  | nil => simp [insertDesc]
  | cons y ys ih =>
    rcases List.pairwise_cons.1 hl with ⟨hy, hys⟩
    by_cases h : y.total ≤ x.total
    · simp only [insertDesc, if_pos h]
      refine List.pairwise_cons.2 ⟨?_, hl⟩
      intro b hb
      rcases List.mem_cons.1 hb with rfl | hb2
      · exact h
      · exact le_trans (hy b hb2) h
    · simp only [insertDesc, if_neg h]
      refine List.pairwise_cons.2 ⟨?_, ih hys⟩
      intro b hb
      have hb2 : b ∈ x :: ys := (insertDesc_perm x ys).mem_iff.1 hb
      rcases List.mem_cons.1 hb2 with rfl | hb3
      · exact le_of_lt (lt_of_not_le h)
      · exact hy b hb3

theorem sortByTotalDesc_pairwise {α π : Type} [LinearOrder α] (l : List (Scored α π)) :
    (sortByTotalDesc l).Pairwise fun a b => b.total ≤ a.total := by
  induction l with
  | nil => simp [sortByTotalDesc]
  | cons x xs ih => exact insertDesc_pairwise x ih

theorem insertDesc_filter_total {α π : Type} [LinearOrder α] (x : Scored α π)
    (l : List (Scored α π)) (t : α) :
    (insertDesc x l).filter (fun r => decide (r.total = t)) =
      ((x :: l).filter fun r => decide (r.total = t)) := by
  induction l with
  | nil => rfl
  | cons y ys ih =>
    by_cases h : y.total ≤ x.total
    · simp only [insertDesc, if_pos h]
    · simp only [insertDesc, if_neg h]
      by_cases hx : x.total = t
      · have hy : ¬y.total = t := by
          intro hyt
          exact h (le_of_eq (hyt.trans hx.symm))
        simp [List.filter_cons, hx, hy, ih]
      · simp [List.filter_cons, hx, ih]

theorem sortByTotalDesc_filter_total {α π : Type} [LinearOrder α]
    (l : List (Scored α π)) (t : α) :
    (sortByTotalDesc l).filter (fun r => decide (r.total = t)) =
      (l.filter fun r => decide (r.total = t)) := by
  induction l with
  | nil => rfl
  | cons x xs ih =>
    rw [sortByTotalDesc, insertDesc_filter_total, List.filter_cons, List.filter_cons, ih]

theorem sortByTotalDesc_ne_nil {α π : Type} [LinearOrder α]
    {l : List (Scored α π)} (h : l ≠ []) : sortByTotalDesc l ≠ [] := by
  intro he
  apply h
  have hlen := (sortByTotalDesc_perm l).length_eq
  rw [he] at hlen
  exact List.length_eq_zero.1 hlen.symm

/-- C1: for every non-empty id list, the ranking `pickBestByScore` computes
is a permutation of the scored entries, descending in total, stable (for
each total value, the entries keep their enumeration order), and the result
is the head's id as winner with the remaining ids in ranked order; in
particular on the spec's three-asset example (A fails with `no_preview` at
total 0, B totals 0.6, C totals 0.8) the winner is C and the alternates are
[B, A]. -/
theorem pickBest_ranks_stable_desc {α π : Type} [LinearOrder α]
    (score : String → α × π) (ids : List String) (h : ids ≠ []) :
    ((sortByTotalDesc (scoredOf score ids)).Perm (scoredOf score ids)
      ∧ (sortByTotalDesc (scoredOf score ids)).Pairwise (fun a b => b.total ≤ a.total)
      ∧ ∀ t, (sortByTotalDesc (scoredOf score ids)).filter (fun r => decide (r.total = t)) =
          ((scoredOf score ids).filter fun r => decide (r.total = t)))
    ∧ (∃ r rs, sortByTotalDesc (scoredOf score ids) = r :: rs
        ∧ pickBestByScore score ids = some ⟨r.id, rs.map Scored.id, r :: rs⟩)
    ∧ pickBestByScore exampleScore ["A", "B", "C"] =
        some ⟨"C", ["B", "A"],
          [⟨"C", 0.8, none⟩, ⟨"B", 0.6, none⟩, ⟨"A", 0, some FailReason.no_preview⟩]⟩ := by
  refine ⟨⟨sortByTotalDesc_perm _, sortByTotalDesc_pairwise _,
      fun t => sortByTotalDesc_filter_total _ t⟩, ?_, ?_⟩
  · have hs : scoredOf score ids ≠ [] := by
      intro he
      apply h
      have := congrArg List.length he
      simpa [scoredOf] using this
    rcases hne : sortByTotalDesc (scoredOf score ids) with _ | ⟨r, rs⟩
    · exact absurd hne (sortByTotalDesc_ne_nil hs)
    · exact ⟨r, rs, rfl, by simp [pickBestByScore, hne]⟩
  · simp +decide [pickBestByScore, sortByTotalDesc, insertDesc, scoredOf, exampleScore]
    norm_num [insertDesc]

/-- C1 witness: the ranked head of the spec's example gives the winner. -/
theorem pickBest_ranks_stable_desc_witness :
    ∃ r rs, sortByTotalDesc (scoredOf exampleScore ["A", "B", "C"]) = r :: rs
      ∧ pickBestByScore exampleScore ["A", "B", "C"] = some ⟨r.id, rs.map Scored.id, r :: rs⟩ :=
  (pickBest_ranks_stable_desc exampleScore ["A", "B", "C"] (by simp)).2.1

/-- C9: the scoring pipeline is deterministic — `scoreAsset` is a pure
function of the fetched bytes/decoded buffer, the metadata, the AI flag
and the weights, so identical inputs give identical totals and breakdowns;
and the group ranking depends only on the scores of the listed ids, so two
runs whose score environments agree on the group's ids produce the same
resolution. -/
theorem scoring_deterministic :
    (∀ (input : Option (Option PixelBuffer)) (meta : Option Asset) (useAI : Bool)
        (w : Weights) (r1 r2 : Option (ℝ × ScoreParts)),
        r1 = scoreAsset input meta useAI w → r2 = scoreAsset input meta useAI w → r1 = r2)
    ∧ (∀ (α π : Type) [LinearOrder α] (s1 s2 : String → α × π) (ids : List String),
        (∀ i ∈ ids, s1 i = s2 i) → pickBestByScore s1 ids = pickBestByScore s2 ids) := by
  constructor
  · intro input meta useAI w r1 r2 h1 h2
    rw [h1, h2]
  · intro α π inst s1 s2 ids hagree
    have hmap : scoredOf s1 ids = scoredOf s2 ids := by
      unfold scoredOf
      exact List.map_congr_left fun i hi => by rw [hagree i hi]
    unfold pickBestByScore
    rw [hmap]

/-- C10: the picker fails (none stands for the TypeError on
`results[0].id`) exactly on an empty id list, and the main loop's per-group
body upholds the non-emptiness precondition: it skips a group whose
filtered id list is empty, and whenever that list is non-empty the picker
is invoked and succeeds. -/
theorem pickBest_empty_precondition :
    (∀ (α π : Type) [LinearOrder α] (score : String → α × π),
      pickBestByScore score [] = none)
    ∧ (∀ (α π : Type) [LinearOrder α] (score : String → α × π) (ids : List String),
        ids ≠ [] → (pickBestByScore score ids).isSome = true)
    ∧ (∀ (α π : Type) [LinearOrder α] (score : String → α × π) (g : DuplicateGroup),
        groupAssetIds g = [] → processGroup score g = none)
    ∧ (∀ (α π : Type) [LinearOrder α] (score : String → α × π) (g : DuplicateGroup),
        groupAssetIds g ≠ [] →
          processGroup score g = pickBestByScore score (groupAssetIds g)
            ∧ (processGroup score g).isSome = true) := by
  have hempty : ∀ (α π : Type) [LinearOrder α] (score : String → α × π),
      pickBestByScore score [] = none := by
    intro α π inst score
    rfl
  have hsome : ∀ (α π : Type) [LinearOrder α] (score : String → α × π) (ids : List String),
      ids ≠ [] → (pickBestByScore score ids).isSome = true := by
    intro α π inst score ids hne
    have hs : scoredOf score ids ≠ [] := by
      intro he
      apply hne
      have := congrArg List.length he
      simpa [scoredOf] using this
    unfold pickBestByScore
    rcases hr : sortByTotalDesc (scoredOf score ids) with _ | ⟨r, rs⟩
    · exact absurd hr (sortByTotalDesc_ne_nil hs)
    · simp
  refine ⟨hempty, hsome, ?_, ?_⟩
  · intro α π inst score g hg
    unfold processGroup
    rw [if_pos hg]
  · intro α π inst score g hg
    constructor
    · unfold processGroup
      rw [if_neg hg]
    · unfold processGroup
      rw [if_neg hg]
      exact hsome α π score (groupAssetIds g) hg

/-! ### Sharpness analyzer edge cases -/

theorem lapConv_length (m : LumMap) :
    (lapConv m).length = (m.height - 2) * (m.width - 2) := by
  simp [lapConv, List.length_flatMap, Function.comp_def, List.map_const', List.sum_replicate]

theorem variance_of_padding (m : LumMap) (h0 : 0 ≤ lapConvLen m)
    (hconv : lapConv m = []) : varianceOfLaplacian m = some 0 := by
  simp only [varianceOfLaplacian, if_neg (not_lt.2 h0), hconv, List.map_nil,
    List.nil_append, List.length_nil, Nat.sub_zero]
  by_cases hk : (List.replicate (lapConvLen m).toNat (0 : ℚ)).length ≤ 1
  · rw [if_pos hk]
  · rw [if_neg hk]
    congr 1
    simp [List.map_replicate, List.sum_replicate]

theorem variance_degenerate (m : LumMap) (h0 : 0 ≤ lapConvLen m)
    (hsmall : m.width < 3 ∨ m.height < 3 ∨ lapConvLen m < 2) :
    varianceOfLaplacian m = some 0 := by
  by_cases hW : 2 ≤ m.width
  · by_cases hH : 2 ≤ m.height
    · have hlen : lapConvLen m = ((m.width - 2) * (m.height - 2) : ℕ) := by
        unfold lapConvLen
        push_cast [Nat.cast_sub hW, Nat.cast_sub hH]
        ring
      have hn : ((lapConv m).map (Int.cast : ℤ → ℚ)).length +
          ((lapConvLen m).toNat - (lapConv m).length) ≤ 1 := by
        rw [List.length_map, lapConv_length, hlen, Int.toNat_natCast,
          Nat.mul_comm (m.height - 2) (m.width - 2), Nat.sub_self, Nat.add_zero]
        rcases hsmall with hw3 | hh3 | h2
        · have : m.width - 2 = 0 := by omega
          rw [this, Nat.zero_mul]
          omega
        · have : m.height - 2 = 0 := by omega
          rw [this, Nat.mul_zero]
          omega
        · rw [hlen] at h2
          exact_mod_cast Nat.le_of_lt_succ (by exact_mod_cast h2)
      simp only [varianceOfLaplacian, if_neg (not_lt.2 h0)]
      rw [if_pos (by simpa using hn)]
    · have hconv : lapConv m = [] := by
        have : (lapConv m).length = 0 := by
          rw [lapConv_length]
          have : m.height - 2 = 0 := by omega
          rw [this, Nat.zero_mul]
        exact List.length_eq_zero.1 this
      exact variance_of_padding m h0 hconv
  · have hconv : lapConv m = [] := by
      have : (lapConv m).length = 0 := by
        rw [lapConv_length]
        have : m.width - 2 = 0 := by omega
        rw [this, Nat.mul_zero]
      exact List.length_eq_zero.1 this
    exact variance_of_padding m h0 hconv

/-- C2: the sharpness analyzer does not survive every degenerate map — the
1 by 3 map makes `(width - 2) * (height - 2)` negative, so the
`Float32Array` allocation throws (modelled by `none`) instead of returning
0; for all degenerate maps whose length expression is non-negative the
claimed guard holds and the analyzer returns 0. -/
theorem varianceOfLaplacian_edge_cases :
    varianceOfLaplacian ⟨1, 3, [0, 0, 0]⟩ = none
    ∧ (∀ m : LumMap, 0 ≤ lapConvLen m →
        (m.width < 3 ∨ m.height < 3 ∨ lapConvLen m < 2) → varianceOfLaplacian m = some 0)
    ∧ varianceOfLaplacian ⟨2, 2, [7, 7, 7, 7]⟩ = some 0
    ∧ varianceOfLaplacian ⟨3, 3, List.replicate 9 200⟩ = some 0 :=
  ⟨by decide, variance_degenerate, by decide, by decide⟩

/-! ### Grayscale reducer -/

theorem getD_map_range {β : Type} (f : ℕ → β) (n j : ℕ) (d : β) (hj : j < n) :
    ((List.range n).map f).getD j d = f j := by
  rw [List.getD_eq_getElem?_getD, List.getElem?_map, List.getElem?_range hj]
  rfl

/-- C3 counterexample: on the valid 1 by 1 buffer with pixel
(R, G, B, A) = (0, 1, 0, 255) the code yields luminance 0 (truncation),
while the claimed `round(0.299 R + 0.587 G + 0.114 B) = round(0.587)` is 1. -/
theorem grayscale_not_round :
    (PixelBuffer.mk 1 1 [0, 1, 0, 255]).valid
    ∧ ((toGrayscaleRGBA [0, 1, 0, 255]).getD 0 0 : ℤ) = 0
    ∧ specRoundLuminance 0 1 0 = 1
    ∧ ((toGrayscaleRGBA [0, 1, 0, 255]).getD 0 0 : ℤ) ≠ specRoundLuminance 0 1 0 := by
  refine ⟨by decide, by decide, ?_, ?_⟩
  · unfold specRoundLuminance
    rw [round_eq]
    norm_num
  · intro h
    rw [show ((toGrayscaleRGBA [0, 1, 0, 255]).getD 0 0 : ℤ) = 0 from by decide] at h
    rw [show specRoundLuminance 0 1 0 = 1 from by unfold specRoundLuminance; rw [round_eq]; norm_num] at h
    exact absurd h (by decide)

/-- C3 amended: for every valid RGBA buffer and pixel index, the produced
luminance is the floor (truncation) of `0.299 R + 0.587 G + 0.114 B` — not
the nearest-integer rounding the claim states — and the alpha channel is
ignored. -/
theorem grayscale_floor (p : PixelBuffer) (hp : p.valid) (j : ℕ)
    (hj : j < p.width * p.height) :
    (toGrayscaleRGBA p.data).getD j 0 =
      ⌊(0.299 : ℚ) * (p.data.getD (4 * j) 0 : ℕ) + 0.587 * (p.data.getD (4 * j + 1) 0 : ℕ)
        + 0.114 * (p.data.getD (4 * j + 2) 0 : ℕ)⌋₊ := by
  obtain ⟨hw, hh, hlen, hb⟩ := hp
  have hcount : p.data.length / 4 = p.width * p.height := by
    rw [hlen, Nat.mul_div_cancel _ (by norm_num)]
  have hget : (toGrayscaleRGBA p.data).getD j 0 =
      (p.data.getD (4 * j) 0 * 299 + p.data.getD (4 * j + 1) 0 * 587 +
        p.data.getD (4 * j + 2) 0 * 114) / 1000 := by
    unfold toGrayscaleRGBA
    rw [getD_map_range]
    rw [hcount]
    exact hj
  rw [hget]
  have hval : (0.299 : ℚ) * (p.data.getD (4 * j) 0 : ℕ) +
      0.587 * (p.data.getD (4 * j + 1) 0 : ℕ) + 0.114 * (p.data.getD (4 * j + 2) 0 : ℕ) =
      ((p.data.getD (4 * j) 0 * 299 + p.data.getD (4 * j + 1) 0 * 587 +
        p.data.getD (4 * j + 2) 0 * 114 : ℕ) : ℚ) / 1000 := by
    push_cast
    ring
  rw [hval]
  rw [show ((1000 : ℚ)) = ((1000 : ℕ) : ℚ) from by norm_num]
  rw [Nat.floor_div_nat, Nat.floor_natCast]

/-- C3 witness: the amended statement at the buffer [10, 20, 30, 255]. -/
theorem grayscale_floor_witness :
    (toGrayscaleRGBA (PixelBuffer.mk 1 1 [10, 20, 30, 255]).data).getD 0 0 =
      ⌊(0.299 : ℚ) * ((PixelBuffer.mk 1 1 [10, 20, 30, 255]).data.getD (4 * 0) 0 : ℕ)
        + 0.587 * ((PixelBuffer.mk 1 1 [10, 20, 30, 255]).data.getD (4 * 0 + 1) 0 : ℕ)
        + 0.114 * ((PixelBuffer.mk 1 1 [10, 20, 30, 255]).data.getD (4 * 0 + 2) 0 : ℕ)⌋₊ :=
  grayscale_floor ⟨1, 1, [10, 20, 30, 255]⟩ (by decide) 0 (by decide)

/-! ### Metadata scorer -/

theorem scoreAsset_throws (px : PixelBuffer) (meta : Option Asset) (useAI : Bool)
    (w : Weights) (hv : varianceOfLaplacian (grayOf px) = none) :
    scoreAsset (some (some px)) meta useAI w = none := by
  simp only [scoreAsset, hv]

theorem scoreAsset_decoded (px : PixelBuffer) (meta : Option Asset) (useAI : Bool)
    (w : Weights) (v : ℚ) (hv : varianceOfLaplacian (grayOf px) = some v) :
    scoreAsset (some (some px)) meta useAI w =
      some ((w.sharpness : ℝ) * sharpnessScore v +
          (w.exposure : ℝ) * ((max 0 (min 1 (0.75 * exposureScore (grayOf px).data +
            0.25 * compositionScore (grayOf px))) : ℚ) : ℝ) +
          (w.face : ℝ) * (((if useAI then
              (match meta with
                | some a => smartInfoScore a
                | none => ((0 : ℚ), (0 : ℚ)))
            else (0, 0)).1 : ℚ) : ℝ) +
          (w.tags : ℝ) * (((if useAI then
              (match meta with
                | some a => smartInfoScore a
                | none => ((0 : ℚ), (0 : ℚ)))
            else (0, 0)).2 : ℚ) : ℝ),
        .ok ⟨sharpnessScore v,
          max 0 (min 1 (0.75 * exposureScore (grayOf px).data +
            0.25 * compositionScore (grayOf px))),
          (if useAI then
              (match meta with
                | some a => smartInfoScore a
                | none => ((0 : ℚ), (0 : ℚ)))
            else (0, 0)).1,
          (if useAI then
              (match meta with
                | some a => smartInfoScore a
                | none => ((0 : ℚ), (0 : ℚ)))
            else (0, 0)).2⟩) := by
  simp only [scoreAsset, hv]

/-- C5 counterexample: for an asset with no smartInfo at all, the face
channel does score 0 but the tags channel scores 1/2 (the neutral empty-tag
score), not 0 as the claim states. -/
theorem absent_tags_score_half :
    (smartInfoScore ⟨none⟩).1 = 0
    ∧ (smartInfoScore ⟨none⟩).2 = 1/2
    ∧ (smartInfoScore ⟨none⟩).2 ≠ 0 := by
  refine ⟨by simp [smartInfoScore], by simp [smartInfoScore], by simp [smartInfoScore]⟩

/-- C5 amended: an absent face/person count yields face score 0; absent
scene tags yield the neutral tag score 1/2 (they behave as an empty tag
list), not 0; only when the whole metadata lookup returns nothing (or the
AI flag is off) do both channels contribute 0 to the blended total. -/
theorem metadata_absence_contributions :
    (∀ a : Asset, a.smartInfo.bind SmartInfo.people = none →
        a.smartInfo.bind SmartInfo.faces = none → (smartInfoScore a).1 = 0)
    ∧ (∀ a : Asset, a.smartInfo.bind SmartInfo.tags = none → (smartInfoScore a).2 = 1/2)
    ∧ (∀ (px : PixelBuffer) (w : Weights) (r : ℝ × ScoreParts),
        scoreAsset (some (some px)) none true w = some r →
          r.2.faceVal = some 0 ∧ r.2.tagsVal = some 0)
    ∧ (∀ (px : PixelBuffer) (meta : Option Asset) (w : Weights) (r : ℝ × ScoreParts),
        scoreAsset (some (some px)) meta false w = some r →
          r.2.faceVal = some 0 ∧ r.2.tagsVal = some 0) := by
  have hmeta : ∀ (px : PixelBuffer) (meta : Option Asset) (useAI : Bool) (w : Weights)
      (r : ℝ × ScoreParts), (useAI = false ∨ meta = none) →
      scoreAsset (some (some px)) meta useAI w = some r →
        r.2.faceVal = some 0 ∧ r.2.tagsVal = some 0 := by
    intro px meta useAI w r hcase hr
    rcases hv : varianceOfLaplacian (grayOf px) with _ | v
    · rw [scoreAsset_throws px meta useAI w hv] at hr
      exact absurd hr (by simp)
    · rw [scoreAsset_decoded px meta useAI w v hv] at hr
      have hft : (if useAI then
          (match meta with
            | some a => smartInfoScore a
            | none => ((0 : ℚ), (0 : ℚ)))
          else (0, 0)) = ((0 : ℚ), (0 : ℚ)) := by
        rcases hcase with hAI | hmetaNone
        · subst hAI
          rfl
        · subst hmetaNone
          rcases useAI with _ | _ <;> rfl
      rw [hft] at hr
      injection hr with hr2
      rw [← hr2]
      exact ⟨rfl, rfl⟩
  refine ⟨?_, ?_, fun px w r hr => hmeta px none true w r (Or.inr rfl) hr,
    fun px meta w r hr => hmeta px meta false w r (Or.inl rfl) hr⟩
  · intro a hp hf
    simp [smartInfoScore, hp, hf]
  · intro a ht
    simp [smartInfoScore, ht]

/-- C7: the metadata scorer maps face counts 0, 1, 3, 10 to 0, 1/3, 1, 1,
and the tag lists [portrait], [screenshot], [portrait, screenshot] and []
to 0.85, 0.2, 0.55 and 0.5. -/
theorem metadata_scorer_values :
    (smartInfoScore ⟨some ⟨none, some 0, none⟩⟩).1 = 0
    ∧ (smartInfoScore ⟨some ⟨none, some 1, none⟩⟩).1 = 1/3
    ∧ (smartInfoScore ⟨some ⟨none, some 3, none⟩⟩).1 = 1
    ∧ (smartInfoScore ⟨some ⟨none, some 10, none⟩⟩).1 = 1
    ∧ (smartInfoScore ⟨some ⟨some ["portrait"], none, none⟩⟩).2 = 0.85
    ∧ (smartInfoScore ⟨some ⟨some ["screenshot"], none, none⟩⟩).2 = 0.2
    ∧ (smartInfoScore ⟨some ⟨some ["portrait", "screenshot"], none, none⟩⟩).2 = 0.55
    ∧ (smartInfoScore ⟨some ⟨some [], none, none⟩⟩).2 = 0.5 := by
  refine ⟨by simp [smartInfoScore], ?_, ?_, ?_, ?_, ?_, ?_, ?_⟩
  · norm_num [smartInfoScore, min_def]
  · norm_num [smartInfoScore, min_def]
  · norm_num [smartInfoScore, min_def]
  · simp +decide [smartInfoScore, jsToLowerCase, asciiLowerChar, positiveTags, negativeTags]
    norm_num [min_def, max_def]
  · simp +decide [smartInfoScore, jsToLowerCase, asciiLowerChar, positiveTags, negativeTags]
    norm_num [min_def, max_def]
  · simp +decide [smartInfoScore, jsToLowerCase, asciiLowerChar, positiveTags, negativeTags]
    norm_num [min_def, max_def]
  · simp [smartInfoScore]
    norm_num [min_def, max_def]

/-! ### Score bounds -/

/-- C6: for every valid luminance map, the sharpness score (whenever the
variance computation succeeds), the exposure score and the composition
score all lie in [0, 1]. -/
theorem analyzer_scores_bounded (m : LumMap) (hm : m.valid) :
    (∀ v : ℚ, varianceOfLaplacian m = some v →
        0 ≤ sharpnessScore v ∧ sharpnessScore v ≤ 1)
    ∧ (0 ≤ exposureScore m.data ∧ exposureScore m.data ≤ 1)
    ∧ (0 ≤ compositionScore m ∧ compositionScore m ≤ 1) := by
  refine ⟨fun v hv => ?_, ?_, ?_⟩
  · unfold sharpnessScore
    exact ⟨le_max_left _ _, max_le zero_le_one (min_le_left _ _)⟩
  · unfold exposureScore
    exact ⟨le_max_left _ _, max_le zero_le_one (min_le_left _ _)⟩
  · unfold compositionScore
    by_cases h : compTotalSum m = 0
    · rw [if_pos h]
      norm_num
    · rw [if_neg h]
      exact ⟨le_max_left _ _, max_le zero_le_one (min_le_left _ _)⟩

/-- C6 witness: the bounds at the all-black 3 by 3 map. -/
theorem analyzer_scores_bounded_witness :
    (LumMap.mk 3 3 (List.replicate 9 0)).valid
    ∧ ((∀ v : ℚ, varianceOfLaplacian ⟨3, 3, List.replicate 9 0⟩ = some v →
          0 ≤ sharpnessScore v ∧ sharpnessScore v ≤ 1)
      ∧ (0 ≤ exposureScore (LumMap.mk 3 3 (List.replicate 9 0)).data
          ∧ exposureScore (LumMap.mk 3 3 (List.replicate 9 0)).data ≤ 1)
      ∧ (0 ≤ compositionScore ⟨3, 3, List.replicate 9 0⟩
          ∧ compositionScore ⟨3, 3, List.replicate 9 0⟩ ≤ 1)) :=
  ⟨by decide, analyzer_scores_bounded ⟨3, 3, List.replicate 9 0⟩ (by decide)⟩

/-! ### Composition analyzer grid -/

theorem Ico_min_lower (w a b : ℕ) (hb : b ≤ w) :
    Finset.Ico a b = Finset.Ico (min w a) b := by
  rcases le_or_lt a w with h | h
  · rw [min_eq_right h]
  · have h1 : min w a = w := min_eq_left (le_of_lt h)
    rw [h1, Finset.Ico_eq_empty (by omega), Finset.Ico_eq_empty (by omega)]

theorem sum_three_cells (w g : ℕ) (f : ℕ → ℕ) :
    (∑ gx in Finset.range 3,
        ∑ x in Finset.Ico (gx * g) (min w ((gx + 1) * g)), f x) =
      ∑ x in Finset.range (min w (3 * g)), f x := by
  rw [Finset.sum_range_succ, Finset.sum_range_succ, Finset.sum_range_one]
  norm_num
  simp only [Finset.range_eq_Ico]
  rw [Ico_min_lower w g (min w (2 * g)) (min_le_left _ _),
    Ico_min_lower w (2 * g) (min w (3 * g)) (min_le_left _ _)]
  rw [Finset.sum_Ico_consecutive f (Nat.zero_le _) (min_le_min_left w (by omega)),
    Finset.sum_Ico_consecutive f (Nat.zero_le _) (min_le_min_left w (by omega))]

theorem compTotalSum_eq_rect (m : LumMap) :
    compTotalSum m =
      ∑ y in Finset.range (min m.height (3 * ghOf m)),
        ∑ x in Finset.range (min m.width (3 * gwOf m)), lum m x y := by
  have hrow : ∀ y, (∑ gx in Finset.range 3,
      ∑ x in Finset.Ico (gx * gwOf m) (min m.width ((gx + 1) * gwOf m)), lum m x y) =
      ∑ x in Finset.range (min m.width (3 * gwOf m)), lum m x y :=
    fun y => sum_three_cells m.width (gwOf m) fun x => lum m x y
  calc compTotalSum m
      = ∑ gy in Finset.range 3,
          ∑ y in Finset.Ico (gy * ghOf m) (min m.height ((gy + 1) * ghOf m)),
            ∑ gx in Finset.range 3,
              ∑ x in Finset.Ico (gx * gwOf m) (min m.width ((gx + 1) * gwOf m)),
                lum m x y := by
        unfold compTotalSum cellSum
        exact Finset.sum_congr rfl fun gy _ => Finset.sum_comm
    _ = ∑ gy in Finset.range 3,
          ∑ y in Finset.Ico (gy * ghOf m) (min m.height ((gy + 1) * ghOf m)),
            ∑ x in Finset.range (min m.width (3 * gwOf m)), lum m x y :=
        Finset.sum_congr rfl fun gy _ => Finset.sum_congr rfl fun y _ => hrow y
    _ = ∑ y in Finset.range (min m.height (3 * ghOf m)),
          ∑ x in Finset.range (min m.width (3 * gwOf m)), lum m x y :=
        sum_three_cells m.height (ghOf m) fun y =>
          ∑ x in Finset.range (min m.width (3 * gwOf m)), lum m x y

/-- C4 counterexample: on the valid 4 by 3 all-ones map the code's
`totalSum` is 9 while the sum of all pixel luminances is 12 — the fourth
column is dropped, not absorbed, so a pixel exists that contributes to no
cell. -/
theorem composition_drops_remainder :
    (LumMap.mk 4 3 (List.replicate 12 1)).valid
    ∧ compTotalSum ⟨4, 3, List.replicate 12 1⟩ = 9
    ∧ (LumMap.mk 4 3 (List.replicate 12 1)).data.sum = 12
    ∧ compTotalSum ⟨4, 3, List.replicate 12 1⟩ ≠ (LumMap.mk 4 3 (List.replicate 12 1)).data.sum :=
  ⟨by decide, by decide, by decide, by decide⟩

/-- C4 amended: with `gw = max 1 (floor (width / 3))` and likewise `gh`,
the nine cells cover exactly the truncated rectangle
`[0, min width (3 gw)) times [0, min height (3 gh))`: the code's
`totalSum` equals the luminance sum over that rectangle (pixels beyond
column `3 gw` or row `3 gh` are dropped, not absorbed by the final
row/column), and every pixel of the rectangle lies in exactly one cell. -/
theorem composition_grid_partition (m : LumMap) :
    compTotalSum m =
      (∑ y in Finset.range (min m.height (3 * ghOf m)),
        ∑ x in Finset.range (min m.width (3 * gwOf m)), lum m x y)
    ∧ (∀ x y, x < min m.width (3 * gwOf m) → y < min m.height (3 * ghOf m) →
        ∃! gc : ℕ × ℕ, gc.1 < 3 ∧ gc.2 < 3
          ∧ gc.1 * gwOf m ≤ x ∧ x < min m.width ((gc.1 + 1) * gwOf m)
          ∧ gc.2 * ghOf m ≤ y ∧ y < min m.height ((gc.2 + 1) * ghOf m)) := by
  refine ⟨compTotalSum_eq_rect m, ?_⟩
  intro x y hx hy
  have hgw : 0 < gwOf m := lt_of_lt_of_le one_pos (le_max_left _ _)
  have hgh : 0 < ghOf m := lt_of_lt_of_le one_pos (le_max_left _ _)
  have hxw : x < m.width := lt_of_lt_of_le hx (min_le_left _ _)
  have hyh : y < m.height := lt_of_lt_of_le hy (min_le_left _ _)
  have hx3 : x < 3 * gwOf m := lt_of_lt_of_le hx (min_le_right _ _)
  have hy3 : y < 3 * ghOf m := lt_of_lt_of_le hy (min_le_right _ _)
  refine ⟨(x / gwOf m, y / ghOf m), ⟨?_, ?_, ?_, ?_, ?_, ?_⟩, ?_⟩
  · exact (Nat.div_lt_iff_lt_mul hgw).2 hx3
  · exact (Nat.div_lt_iff_lt_mul hgh).2 hy3
  · exact Nat.div_mul_le_self x (gwOf m)
  · refine lt_min hxw ?_
    have := Nat.lt_div_mul_add hgw (a := x)
    rw [Nat.add_mul, one_mul]
    exact this
  · exact Nat.div_mul_le_self y (ghOf m)
  · refine lt_min hyh ?_
    have := Nat.lt_div_mul_add hgh (a := y)
    rw [Nat.add_mul, one_mul]
    exact this
  · rintro ⟨gx, gy⟩ ⟨hgx3, hgy3, hxl, hxu, hyl, hyu⟩
    have hxu2 : x < (gx + 1) * gwOf m := lt_of_lt_of_le hxu (min_le_right _ _)
    have hyu2 : y < (gy + 1) * ghOf m := lt_of_lt_of_le hyu (min_le_right _ _)
    have hgx : x / gwOf m = gx := Nat.div_eq_of_lt_le hxl hxu2
    have hgy : y / ghOf m = gy := Nat.div_eq_of_lt_le hyl hyu2
    simp [hgx, hgy]

/-! ### Uniform images -/

theorem getD_replicate {n i c d : ℕ} (h : i < n) :
    (List.replicate n c).getD i d = c := by
  rw [List.getD_eq_getElem?_getD, List.getElem?_replicate, if_pos h]
  rfl

theorem sum_const_cell (wid hei c gx gy gw gh : ℕ)
    (hxw : (gx + 1) * gw ≤ wid) (hyh : (gy + 1) * gh ≤ hei) :
    (∑ y in Finset.Ico (gy * gh) (min hei ((gy + 1) * gh)),
      ∑ x in Finset.Ico (gx * gw) (min wid ((gx + 1) * gw)),
        (List.replicate (wid * hei) c).getD (y * wid + x) 0) = gh * gw * c := by
  rw [min_eq_right hyh, min_eq_right hxw]
  have hval : ∀ y ∈ Finset.Ico (gy * gh) ((gy + 1) * gh),
      ∀ x ∈ Finset.Ico (gx * gw) ((gx + 1) * gw),
      (List.replicate (wid * hei) c).getD (y * wid + x) 0 = c := by
    intro y hy x hx
    have hyb := (Finset.mem_Ico.1 hy).2
    have hxb := (Finset.mem_Ico.1 hx).2
    have hylt : y < hei := lt_of_lt_of_le hyb hyh
    have hxlt : x < wid := lt_of_lt_of_le hxb hxw
    apply getD_replicate
    calc y * wid + x < y * wid + wid := Nat.add_lt_add_left hxlt _
    _ = (y + 1) * wid := by rw [Nat.add_mul, one_mul]
    _ ≤ hei * wid := Nat.mul_le_mul_right wid (by omega)
    _ = wid * hei := Nat.mul_comm hei wid
  rw [Finset.sum_congr rfl fun y hy => Finset.sum_congr rfl fun x hx => hval y hy x hx]
  simp only [Finset.sum_const, Nat.card_Ico, smul_eq_mul]
  have h1 : (gy + 1) * gh - gy * gh = gh := by
    rw [Nat.add_mul, one_mul, Nat.add_sub_cancel_left]
  have h2 : (gx + 1) * gw - gx * gw = gw := by
    rw [Nat.add_mul, one_mul, Nat.add_sub_cancel_left]
  rw [h1, h2, Nat.mul_assoc]

theorem gwOf_uniform (wid hei c : ℕ) (hw : 3 ≤ wid) :
    gwOf (uniformMap wid hei c) = wid / 3 :=
  max_eq_right ((Nat.one_le_div_iff (by norm_num)).2 hw)

theorem ghOf_uniform (wid hei c : ℕ) (hh : 3 ≤ hei) :
    ghOf (uniformMap wid hei c) = hei / 3 :=
  max_eq_right ((Nat.one_le_div_iff (by norm_num)).2 hh)

theorem cellSum_uniform (wid hei c gx gy : ℕ) (hw : 3 ≤ wid) (hh : 3 ≤ hei)
    (hgx : gx < 3) (hgy : gy < 3) :
    cellSum (uniformMap wid hei c) gx gy = (hei / 3) * ((wid / 3) * c) := by
  have hxw : (gx + 1) * (wid / 3) ≤ wid := by
    calc (gx + 1) * (wid / 3) ≤ 3 * (wid / 3) := Nat.mul_le_mul_right _ (by omega)
    _ ≤ wid := by
        rw [Nat.mul_comm]
        exact Nat.div_mul_le_self wid 3
  have hyh : (gy + 1) * (hei / 3) ≤ hei := by
    calc (gy + 1) * (hei / 3) ≤ 3 * (hei / 3) := Nat.mul_le_mul_right _ (by omega)
    _ ≤ hei := by
        rw [Nat.mul_comm]
        exact Nat.div_mul_le_self hei 3
  unfold cellSum lum
  rw [gwOf_uniform wid hei c hw, ghOf_uniform wid hei c hh]
  simp only [uniformMap]
  rw [sum_const_cell wid hei c gx gy (wid / 3) (hei / 3) hxw hyh, Nat.mul_assoc]

theorem compTotalSum_uniform (wid hei c : ℕ) (hw : 3 ≤ wid) (hh : 3 ≤ hei) :
    compTotalSum (uniformMap wid hei c) = 9 * ((hei / 3) * ((wid / 3) * c)) := by
  unfold compTotalSum
  rw [Finset.sum_congr rfl fun gy hgy => Finset.sum_congr rfl fun gx hgx =>
    cellSum_uniform wid hei c gx gy hw hh (Finset.mem_range.1 hgx) (Finset.mem_range.1 hgy)]
  simp only [Finset.sum_const, Finset.card_range, smul_eq_mul]
  ring

/-- C8: on a uniform image of size at least 3 by 3 the composition score is
1/2 exactly when the total luminance sum is 0 (the all-black image); for a
non-zero constant the centre fraction is exactly 1/9 and the score is
exactly 1/216, which is within 0.001 of the claimed 0.004 and near 0. -/
theorem composition_uniform (wid hei c : ℕ) (hw : 3 ≤ wid) (hh : 3 ≤ hei) :
    (compositionScore (uniformMap wid hei c) = 1/2 ↔
      compTotalSum (uniformMap wid hei c) = 0)
    ∧ (compTotalSum (uniformMap wid hei c) = 0 ↔ c = 0)
    ∧ (c ≠ 0 →
        (compCenterSum (uniformMap wid hei c) : ℚ) /
            (compTotalSum (uniformMap wid hei c) : ℚ) = 1/9
        ∧ compositionScore (uniformMap wid hei c) = 1/216
        ∧ |compositionScore (uniformMap wid hei c) - 0.004| < 0.001) := by
  have hwd : 0 < wid / 3 := (Nat.one_le_div_iff (by norm_num)).2 hw
  have hhd : 0 < hei / 3 := (Nat.one_le_div_iff (by norm_num)).2 hh
  have htot := compTotalSum_uniform wid hei c hw hh
  have hcen : compCenterSum (uniformMap wid hei c) = (hei / 3) * ((wid / 3) * c) :=
    cellSum_uniform wid hei c 1 1 hw hh (by norm_num) (by norm_num)
  have hiff2 : compTotalSum (uniformMap wid hei c) = 0 ↔ c = 0 := by
    rw [htot]
    constructor
    · intro h
      rcases Nat.mul_eq_zero.1 h with h9 | hrest
      · exact absurd h9 (by norm_num)
      · rcases Nat.mul_eq_zero.1 hrest with hh0 | hwc
        · omega
        · rcases Nat.mul_eq_zero.1 hwc with hw0 | hc
          · omega
          · exact hc
    · intro h
      rw [h]
      ring
  have hfrac : c ≠ 0 →
      (compCenterSum (uniformMap wid hei c) : ℚ) /
        (compTotalSum (uniformMap wid hei c) : ℚ) = 1/9 := by
    intro hc
    rw [htot, hcen]
    push_cast
    have h1 : ((hei / 3 : ℕ) : ℚ) ≠ 0 := Nat.cast_ne_zero.2 (by omega)
    have h2 : ((wid / 3 : ℕ) : ℚ) ≠ 0 := Nat.cast_ne_zero.2 (by omega)
    have h3 : (c : ℚ) ≠ 0 := Nat.cast_ne_zero.2 hc
    field_simp
    ring
  have hscore : c ≠ 0 → compositionScore (uniformMap wid hei c) = 1/216 := by
    intro hc
    have hne : compTotalSum (uniformMap wid hei c) ≠ 0 := fun h => hc (hiff2.1 h)
    unfold compositionScore
    rw [if_neg hne]
    rw [hfrac hc]
    norm_num [min_def, max_def]
  refine ⟨?_, hiff2, fun hc => ⟨hfrac hc, hscore hc, ?_⟩⟩
  · by_cases hc : c = 0
    · have h0 : compTotalSum (uniformMap wid hei c) = 0 := hiff2.2 hc
      unfold compositionScore
      rw [if_pos h0]
      norm_num [h0]
    · rw [hscore hc]
      constructor
      · intro h
        exact absurd h (by norm_num)
      · intro h
        exact absurd (hiff2.1 h) hc
  · rw [hscore hc]
    rw [abs_sub_lt_iff]
    norm_num

/-- C8 witness: the uniform 3 by 3 image with constant luminance 1. -/
theorem composition_uniform_witness :
    (compositionScore (uniformMap 3 3 1) = 1/2 ↔ compTotalSum (uniformMap 3 3 1) = 0)
    ∧ (compTotalSum (uniformMap 3 3 1) = 0 ↔ (1 : ℕ) = 0)
    ∧ ((1 : ℕ) ≠ 0 →
        (compCenterSum (uniformMap 3 3 1) : ℚ) / (compTotalSum (uniformMap 3 3 1) : ℚ) = 1/9
        ∧ compositionScore (uniformMap 3 3 1) = 1/216
        ∧ |compositionScore (uniformMap 3 3 1) - 0.004| < 0.001) :=
  composition_uniform 3 3 1 (by norm_num) (by norm_num)

end BestShot
